import Mathlib

/-
Verification of the Uber receipt extraction repository
(gumloop_uber_recipts_processing: extract_uber_data.py and
process_uber_receipts.py) against its natural-language specification.

Python strings are modelled as lists of characters.  The regular
expressions used by the source are implemented as hand-written matchers;
each one is a faithful translation of Python re.search semantics for the
concrete pattern (leftmost match, left-biased alternation, greedy
quantifiers).  For each pattern, adjacent quantified character classes
are pairwise disjoint, so greedy maximal munch is equivalent to the
backtracking semantics; the one lazy quantifier in the source is
modelled by an explicit shortest-first scan.  Character classes are
modelled over the ASCII ranges the source's data uses (Python's Unicode
whitespace and digit extensions do not occur in receipt bodies).
Python floats are modelled as rationals: the only float operations the
source performs are parsing and equality-relevant bookkeeping.
-/

set_option maxRecDepth 8192

abbrev Str := List Char

def lbrace : Char := Char.ofNat 123

def rbrace : Char := Char.ofNat 125

/-- Python whitespace class (ASCII part), used by both the regex class
and str.strip / str.split. -/
def isWs (c : Char) : Bool :=
  c == ' ' || c == '\t' || c == '\n' || c == '\r' || c == '\x0b' || c == '\x0c'

def isAmtC (c : Char) : Bool :=
  c.isDigit || c == '.' || c == ','

def isCurC (c : Char) : Bool :=
  c.isAlpha || c == '$' || c == '€' || c == '£'

def isNameLetter (c : Char) : Bool :=
  c.isAlpha || c == 'å' || c == 'ä' || c == 'ö' || c == 'Å' || c == 'Ä' || c == 'Ö'

/-- Greedy span of a character class, returning (matched, rest). -/
def spanW (p : Char → Bool) : Str → Str × Str
  | [] => ([], [])
  | c :: cs =>
      if p c then
        let r := spanW p cs
        (c :: r.1, r.2)
      else ([], c :: cs)

/-- Match a literal at the current position, returning the rest. -/
def litAt : Str → Str → Option Str
  | [], s => some s
  | _, [] => none
  | l :: ls, c :: cs => if l == c then litAt ls cs else none

/-- One-or-more characters of a class (a greedy plus), returning the
captured run and the rest. -/
def clsPlus (p : Char → Bool) (s : Str) : Option (Str × Str) :=
  match spanW p s with
  | ([], _) => none
  | (x :: xs, rest) => some (x :: xs, rest)

/-- Whitespace plus, returning the rest. -/
def wsPlus (s : Str) : Option Str :=
  match spanW isWs s with
  | ([], _) => none
  | (_ :: _, rest) => some rest

/-- Python re.search: try the pattern at each position left to right
(including the empty suffix at the end). -/
def reSearch (f : Str → Option α) : Str → Option α
  | [] => f []
  | c :: rest =>
      match f (c :: rest) with
      | some r => some r
      | none => reSearch f rest

/-- Python str.strip for the ASCII whitespace class. -/
def pyStrip (s : Str) : Str :=
  (((spanW isWs ((spanW isWs s).2.reverse)).2)).reverse

/-- Python str.split() with no argument: split on whitespace runs,
dropping empty fields. -/
def pySplitAux : Str → Str → List Str
  | [], acc => if acc.isEmpty then [] else [acc.reverse]
  | c :: rest, acc =>
      if isWs c then
        if acc.isEmpty then pySplitAux rest []
        else acc.reverse :: pySplitAux rest []
      else pySplitAux rest (c :: acc)

def pySplit (s : Str) : List Str := pySplitAux s []

/-- Python str.lower restricted to the characters the source can
capture (ASCII letters and the Swedish letters of the regex classes). -/
def pyLower1 (c : Char) : Char :=
  if c.isUpper then c.toLower
  else if c == 'Å' then 'å'
  else if c == 'Ä' then 'ä'
  else if c == 'Ö' then 'ö'
  else c

def pyLower (s : Str) : Str := s.map pyLower1

/-- Python str.zfill(2): pad to width two with leading zeros, keeping a
leading sign in front of the padding. -/
def zfill2 : Str → Str
  | [] => ['0', '0']
  | [c] => if c == '+' || c == '-' then [c, '0'] else ['0', c]
  | s => s

def natOfDigits (s : Str) : Nat :=
  s.foldl (fun a c => a * 10 + (c.toNat - 48)) 0

/-- Model of Python float() on the strings the source feeds it (amount
regex groups after the comma-to-dot replacement: digits, dots and
commas only).  Succeeds exactly when the string has at most one dot, at
least one digit, and nothing but digits around the dot. -/
def parseAmt (s : Str) : Option ℚ :=
  let sp := spanW (fun c => !(c == '.')) s
  match sp.2 with
  | [] =>
      if !sp.1.isEmpty && sp.1.all Char.isDigit then some (natOfDigits sp.1) else none
  | _ :: fp =>
      if fp.all Char.isDigit && sp.1.all Char.isDigit && (!sp.1.isEmpty || !fp.isEmpty) then
        some ((natOfDigits sp.1 : ℚ) + (natOfDigits fp : ℚ) / (10 : ℚ) ^ fp.length)
      else none

/-- The source's cost_str.replace(',', '.'). -/
def replaceComma (s : Str) : Str :=
  s.map (fun c => if c == ',' then '.' else c)

/-
Regex matchers for extract_uber_data.py (the lenient variant).
Each matchXAt function matches its pattern anchored at the start of the
given suffix; reSearch turns it into Python re.search.
-/

/-- Pattern (Totalt|Avbokningsavgift)\s+([\d\.,]+)\s+([A-Za-z$€£]+)
anchored at a position; returns (amount group, currency group).
The alternatives have distinct first characters and all adjacent
quantified classes are disjoint, so no backtracking is possible. -/
def matchTotalAt (s : Str) : Option (Str × Str) := do
  let r0 ←
    match litAt ("Totalt".toList) s with
    | some r => some r
    | none => litAt ("Avbokningsavgift".toList) s
  let r1 ← wsPlus r0
  let (amt, r2) ← clsPlus isAmtC r1
  let r3 ← wsPlus r2
  let (cur, _) ← clsPlus isCurC r3
  pure (amt, cur)

def searchTotal : Str → Option (Str × Str) := reSearch matchTotalAt

/-- Relaxed pattern (\d+[\.,]?\d*)\s*([A-Za-z$€£]+) anchored at a
position; returns (amount group, currency group).  Taking the optional
separator when present is never worse than skipping it (skipping leaves
the scan on a dot or comma, which neither \s nor the currency class
accepts), so the greedy choice below is exact. -/
def sepSplitOf (r1 : Str) : Str × Str :=
  match r1 with
  | c :: rest => if c == '.' || c == ',' then ([c], rest) else (([] : Str), r1)
  | [] => (([] : Str), r1)

def matchRelaxedAt (s : Str) : Option (Str × Str) :=
  match clsPlus Char.isDigit s with
  | none => none
  | some (d1, r1) =>
      let sepSplit := sepSplitOf r1
      let d2Split := spanW Char.isDigit sepSplit.2
      let r4 := (spanW isWs d2Split.2).2
      match clsPlus isCurC r4 with
      | none => none
      | some (cur, _) => some (d1 ++ sepSplit.1 ++ d2Split.1, cur)

def searchRelaxed : Str → Option (Str × Str) := reSearch matchRelaxedAt

/-- The date group (\d{1,2}\s+[a-zA-ZåäöÅÄÖ]+\s+\d{4}) anchored at a
position, returning the matched text.  A digit run of three or more
cannot match (after one or two digits the next pattern element is \s+,
but the next character would still be a digit), so the guard on the run
length is exact; \d{4} consumes exactly the first four digits of the
final run. -/
def matchDateGroupAt (s : Str) : Option Str := do
  let (ds, r1) ← clsPlus Char.isDigit s
  if ds.length ≤ 2 then
    let w1Split := spanW isWs r1
    match w1Split.1 with
    | [] => none
    | _ :: _ => do
      let (mon, r3) ← clsPlus isNameLetter w1Split.2
      let w2Split := spanW isWs r3
      match w2Split.1 with
      | [] => none
      | _ :: _ =>
        let ys := (spanW Char.isDigit w2Split.2).1
        if 4 ≤ ys.length then
          pure (ds ++ w1Split.1 ++ mon ++ w2Split.1 ++ ys.take 4)
        else none
  else none

def searchGenDate : Str → Option Str := reSearch matchDateGroupAt

/-- Pattern (Totalt|Avbokningsavgift)\s+[\d\.,]+\s+[A-Za-z$€£]+\s+(date
group) anchored at a position, returning the date group. -/
def matchAnchoredDateAt (s : Str) : Option Str := do
  let r0 ←
    match litAt ("Totalt".toList) s with
    | some r => some r
    | none => litAt ("Avbokningsavgift".toList) s
  let r1 ← wsPlus r0
  let (_, r2) ← clsPlus isAmtC r1
  let r3 ← wsPlus r2
  let (_, r4) ← clsPlus isCurC r3
  let r5 ← wsPlus r4
  matchDateGroupAt r5

def searchAnchoredDate : Str → Option Str := reSearch matchAnchoredDateAt

/-- Pattern (Tack för att du reser,|Vi ses en annan gång,)\s+
([A-Za-zåäöÅÄÖ]+) anchored at a position, returning the captured name. -/
def matchGreetingAt (s : Str) : Option Str := do
  let r0 ←
    match litAt ("Tack för att du reser,".toList) s with
    | some r => some r
    | none => litAt ("Vi ses en annan gång,".toList) s
  let r1 ← wsPlus r0
  let (cand, _) ← clsPlus isNameLetter r1
  pure cand

def searchGreeting : Str → Option Str := reSearch matchGreetingAt

/-- Per-name pattern Tack\s+(name)! anchored at a position. -/
def matchTackBangAt (n : Str) (s : Str) : Option Unit := do
  let r0 ← litAt ("Tack".toList) s
  let r1 ← wsPlus r0
  let r2 ← litAt n r1
  match r2 with
  | c :: _ => if c == '!' then pure () else none
  | [] => none

/-- Per-name pattern (name)s\s+(?:resa|tur) anchored at a position. -/
def matchPossNameAt (n : Str) (s : Str) : Option Unit := do
  let r0 ← litAt (n ++ ['s']) s
  let r1 ← wsPlus r0
  let _ ←
    match litAt ("resa".toList) r1 with
    | some r => some r
    | none => litAt ("tur".toList) r1
  pure ()

/-- The alternation (?:reser|åker|färd|resa) anchored at a position
(no two alternatives can match at the same position). -/
def kwAt (s : Str) : Option Str :=
  match litAt ("reser".toList) s with
  | some r => some r
  | none =>
    match litAt ("åker".toList) s with
    | some r => some r
    | none =>
      match litAt ("färd".toList) s with
      | some r => some r
      | none => litAt ("resa".toList) s

/-- The lazy tail .*?,\s+(name): scan forward (the dot does not match a
newline), at each comma trying ,\s+(name), shortest extension first. -/
def lazyCommaName (n : Str) : Str → Option Unit
  | [] => none
  | c :: rest =>
      if c == ',' &&
          (match (do
            let r1 ← wsPlus rest
            let _ ← litAt n r1
            pure ()) with
          | some _ => true
          | none => false) then
        some ()
      else if c == '\n' then none
      else lazyCommaName n rest

/-- Per-name pattern (?:reser|åker|färd|resa).*?,\s+(name) anchored at a
position. -/
def matchKwCommaNameAt (n : Str) (s : Str) : Option Unit := do
  let r0 ← kwAt s
  lazyCommaName n r0

/-- General pattern Tack\s+([A-Za-zåäöÅÄÖ]+)! anchored at a position. -/
def matchTackCapAt (s : Str) : Option Str := do
  let r0 ← litAt ("Tack".toList) s
  let r1 ← wsPlus r0
  let (cand, r2) ← clsPlus isNameLetter r1
  match r2 with
  | c :: _ => if c == '!' then pure cand else none
  | [] => none

/-- The lazy tail .*?,\s+([A-Za-zåäöÅÄÖ]+) with a capture. -/
def lazyCommaCap : Str → Option Str
  | [] => none
  | c :: rest =>
      if c == ',' then
        match (do
          let r1 ← wsPlus rest
          let (cand, _) ← clsPlus isNameLetter r1
          pure cand) with
        | some cand => some cand
        | none => lazyCommaCap rest
      else if c == '\n' then none
      else lazyCommaCap rest

/-- General pattern (?:reser|åker|färd|resa).*?,\s+([A-Za-zåäöÅÄÖ]+)
anchored at a position. -/
def matchKwCommaCapAt (s : Str) : Option Str := do
  let r0 ← kwAt s
  lazyCommaCap r0

/-- General pattern ([A-Za-zåäöÅÄÖ]+)s\s+(?:resa|tur) anchored at a
position.  The greedy capture followed by the literal s can only
succeed with the capture equal to the letter run minus its final
character, which must be an s: a shorter capture leaves a letter where
\s+ must match, and the full run leaves a non-letter where the literal
s must match. -/
def matchPossCapAt (s : Str) : Option Str := do
  let (run, r1) ← clsPlus isNameLetter s
  if 2 ≤ run.length && run.getLast? == some 's' then do
    let r2 ← wsPlus r1
    let _ ←
      match litAt ("resa".toList) r2 with
      | some r => some r
      | none => litAt ("tur".toList) r2
    pure run.dropLast
  else none

/-- The family roster.  The source stores it as a Python set, whose
iteration order is unspecified; it is modelled here in the literal
order of the source text.  Every property proved below about the roster
loops is independent of this order (the loops are only ever shown to
fail on all names, or to find the unique case-insensitive match). -/
def family_members : List Str :=
  ["Fredrik".toList, "Viggo".toList, "Agne".toList,
   "Giedre".toList, "Nadine".toList, "Leona".toList]

/-- Stage (b) of passenger extraction: does any of the three per-name
patterns match anywhere in the body for this name? -/
def nameMatches (n : Str) (body : Str) : Bool :=
  (reSearch (matchTackBangAt n) body).isSome ||
  (reSearch (matchPossNameAt n) body).isSome ||
  (reSearch (matchKwCommaNameAt n) body).isSome

/-- Stage (c) of passenger extraction: the three general patterns tried
in source order, first pattern with a match anywhere wins. -/
def generalCapture (body : Str) : Option Str :=
  match reSearch matchTackCapAt body with
  | some c => some c
  | none =>
    match reSearch matchKwCommaCapAt body with
    | some c => some c
    | none => reSearch matchPossCapAt body

/-- The Swedish month table of convert_swedish_date_to_iso. -/
def swedishMonthLookup (m : Str) : Option Str :=
  if m = "januari".toList then some ("01".toList)
  else if m = "februari".toList then some ("02".toList)
  else if m = "mars".toList then some ("03".toList)
  else if m = "april".toList then some ("04".toList)
  else if m = "maj".toList then some ("05".toList)
  else if m = "juni".toList then some ("06".toList)
  else if m = "juli".toList then some ("07".toList)
  else if m = "augusti".toList then some ("08".toList)
  else if m = "september".toList then some ("09".toList)
  else if m = "oktober".toList then some ("10".toList)
  else if m = "november".toList then some ("11".toList)
  else if m = "december".toList then some ("12".toList)
  else none

/-- convert_swedish_date_to_iso, identical in the three copies the
repository contains (module level in process_uber_receipts.py and
nested in both batch extractors): empty input gives None; otherwise
strip and split on whitespace; exactly three fields with a recognized
(case-insensitive) month give year-month-zfilled day; anything else
gives None, and nothing can raise. -/
def convert_swedish_date_to_iso (s : Str) : Option Str :=
  if s.isEmpty then none
  else
    match pySplit (pyStrip s) with
    | [d, m, y] =>
        match swedishMonthLookup (pyLower m) with
        | some mm => some (y ++ ['-'] ++ mm ++ ['-'] ++ zfill2 d)
        | none => none
    | _ => none

/-
JSON values and a model of Python json.loads, needed for the string
input paths of extract_uber_data.  Numbers are modelled as rationals.
Python's json also accepts NaN, Infinity and -Infinity; these are not
modelled (an input using them would in any case produce a non-dict
record that the extraction loop then skips, landing in the same
zero-receipts outcome proved below).
-/

inductive Json where
  | null
  | bool (b : Bool)
  | num (q : ℚ)
  | str (s : Str)
  | arr (elts : List Json)
  | obj (kvs : List (Str × Json))

def jWs (c : Char) : Bool :=
  c == ' ' || c == '\t' || c == '\n' || c == '\r'

def skipJWs (s : Str) : Str := (spanW jWs s).2

def hexVal (c : Char) : Option Nat :=
  if c.isDigit then some (c.toNat - 48)
  else if 'a' ≤ c && c ≤ 'f' then some (c.toNat - 87)
  else if 'A' ≤ c && c ≤ 'F' then some (c.toNat - 55)
  else none

/-- JSON string contents after the opening quote, with the standard
escapes (lone surrogates from \u escapes are out of model). -/
def parseJStr : Nat → Str → Option (Str × Str)
  | 0, _ => none
  | _ + 1, [] => none
  | fuel + 1, c :: rest =>
      if c == '"' then some ([], rest)
      else if c == '\\' then
        match rest with
        | [] => none
        | e :: rest2 =>
            let dec : Option (Char × Str) :=
              if e == '"' then some ('"', rest2)
              else if e == '\\' then some ('\\', rest2)
              else if e == '/' then some ('/', rest2)
              else if e == 'b' then some ('\x08', rest2)
              else if e == 'f' then some ('\x0c', rest2)
              else if e == 'n' then some ('\n', rest2)
              else if e == 'r' then some ('\r', rest2)
              else if e == 't' then some ('\t', rest2)
              else if e == 'u' then
                match rest2 with
                | h1 :: h2 :: h3 :: h4 :: rest3 =>
                    match hexVal h1, hexVal h2, hexVal h3, hexVal h4 with
                    | some v1, some v2, some v3, some v4 =>
                        some (Char.ofNat (((v1 * 16 + v2) * 16 + v3) * 16 + v4), rest3)
                    | _, _, _, _ => none
                | _ => none
              else none
            match dec with
            | some (ch, r) =>
                match parseJStr fuel r with
                | some (tail, r2) => some (ch :: tail, r2)
                | none => none
            | none => none
      else if c.toNat < 32 then none
      else
        match parseJStr fuel rest with
        | some (tail, r2) => some (c :: tail, r2)
        | none => none

/-- JSON number at the current position.  Mirrors the scanner regex of
Python's json module: an optional fractional or exponent part that is
malformed is simply not consumed (the decode error then surfaces, if at
all, as trailing data at top level). -/
def parseJNum (s : Str) : Option (ℚ × Str) :=
  let signSplit :=
    match s with
    | c :: r => if c == '-' then (true, r) else (false, s)
    | [] => (false, s)
  match spanW Char.isDigit signSplit.2 with
  | ([], _) => none
  | (ds, r1) =>
      if 2 ≤ ds.length && ds.headD 'x' == '0' then none
      else
        let fracSplit : ℚ × Str :=
          match r1 with
          | c :: r =>
              if c == '.' then
                match spanW Char.isDigit r with
                | ([], _) => (0, r1)
                | (fs, r3) => ((natOfDigits fs : ℚ) / (10 : ℚ) ^ fs.length, r3)
              else (0, r1)
          | [] => (0, r1)
        let expSplit : Int × Str :=
          match fracSplit.2 with
          | c :: r =>
              if c == 'e' || c == 'E' then
                let es :=
                  match r with
                  | c2 :: r2 =>
                      if c2 == '+' then ((1 : Int), r2)
                      else if c2 == '-' then ((-1 : Int), r2)
                      else ((1 : Int), r)
                  | [] => ((1 : Int), r)
                match spanW Char.isDigit es.2 with
                | ([], _) => (0, fracSplit.2)
                | (xs, r3) => (es.1 * (natOfDigits xs : Int), r3)
              else (0, fracSplit.2)
          | [] => (0, fracSplit.2)
        let mag : ℚ := ((natOfDigits ds : ℚ) + fracSplit.1) * (10 : ℚ) ^ expSplit.1
        some (if signSplit.1 then -mag else mag, expSplit.2)

mutual

/-- One JSON value at the current position (leading whitespace
allowed), with the rest of the input. -/
def parseJVal : Nat → Str → Option (Json × Str)
  | 0, _ => none
  | fuel + 1, s0 =>
      match skipJWs s0 with
      | [] => none
      | c :: rest =>
          if c == '"' then
            match parseJStr fuel rest with
            | some (cs, r) => some (Json.str cs, r)
            | none => none
          else if c == lbrace then
            match skipJWs rest with
            | c2 :: r2 =>
                if c2 == rbrace then some (Json.obj [], r2)
                else parseJMembers fuel [] (c2 :: r2)
            | [] => none
          else if c == '[' then
            match skipJWs rest with
            | c2 :: r2 =>
                if c2 == ']' then some (Json.arr [], r2)
                else parseJItems fuel [] (c2 :: r2)
            | [] => none
          else
            match litAt ("true".toList) (c :: rest) with
            | some r => some (Json.bool true, r)
            | none =>
              match litAt ("false".toList) (c :: rest) with
              | some r => some (Json.bool false, r)
              | none =>
                match litAt ("null".toList) (c :: rest) with
                | some r => some (Json.null, r)
                | none =>
                  match parseJNum (c :: rest) with
                  | some (q, r) => some (Json.num q, r)
                  | none => none

/-- Members of an object after at least one is required; the
accumulated key-value pairs are kept in textual order. -/
def parseJMembers : Nat → List (Str × Json) → Str → Option (Json × Str)
  | 0, _, _ => none
  | fuel + 1, acc, s =>
      match skipJWs s with
      | c :: rest =>
          if c == '"' then
            match parseJStr fuel rest with
            | some (key, r) =>
                match skipJWs r with
                | c2 :: r2 =>
                    if c2 == ':' then
                      match parseJVal fuel r2 with
                      | some (v, r3) =>
                          match skipJWs r3 with
                          | c3 :: r4 =>
                              if c3 == ',' then parseJMembers fuel (acc ++ [(key, v)]) r4
                              else if c3 == rbrace then some (Json.obj (acc ++ [(key, v)]), r4)
                              else none
                          | [] => none
                      | none => none
                    else none
                | [] => none
            | none => none
          else none
      | [] => none

/-- Items of an array after at least one is required. -/
def parseJItems : Nat → List Json → Str → Option (Json × Str)
  | 0, _, _ => none
  | fuel + 1, acc, s =>
      match parseJVal fuel s with
      | some (v, r) =>
          match skipJWs r with
          | c :: r2 =>
              if c == ',' then parseJItems fuel (acc ++ [v]) r2
              else if c == ']' then some (Json.arr (acc ++ [v]), r2)
              else none
          | [] => none
      | none => none

end

/-- Model of json.loads: one value, then only whitespace may remain
(anything else is the Extra data decode error).  The fuel bound
length + 1 suffices because every nesting level consumes at least one
character of the input. -/
def jsonParse (s : Str) : Option Json :=
  match parseJVal (s.length + 1) s with
  | some (v, r) => if (skipJWs r).isEmpty then some v else none
  | none => none

/-
Input normalization of extract_uber_data for string inputs
(extract_uber_data.py lines 50-84).
-/

/-- The marker of re.split: the literal newline-newline Value-hash,
one or more digits (greedy, and the following colon is not a digit, so
maximal munch is exact), colon, newline-newline.  Returns the rest
after the marker when it matches at the current position. -/
def markerAt (s : Str) : Option Str := do
  let r0 ← litAt ("\n\nValue #".toList) s
  let (_, r1) ← clsPlus Char.isDigit r0
  litAt (":\n\n".toList) r1

/-- Does the marker match anywhere in the string? -/
def hasMarker : Str → Bool
  | [] => (markerAt []).isSome
  | c :: rest => (markerAt (c :: rest)).isSome || hasMarker rest

/-- re.split on the marker pattern: the pieces between non-overlapping
leftmost marker matches.  Fuel length + 1 suffices since a marker
consumes at least one character. -/
def splitMarkersGo : Nat → Str → Str → List Str
  | 0, acc, s => [acc.reverse ++ s]
  | _ + 1, acc, [] => [acc.reverse]
  | fuel + 1, acc, c :: rest =>
      match markerAt (c :: rest) with
      | some r => acc.reverse :: splitMarkersGo fuel [] r
      | none => splitMarkersGo fuel (c :: acc) rest

def splitMarkers (s : Str) : List Str :=
  splitMarkersGo (s.length + 1) [] s

def braceIn (s : Str) : Bool := s.any (fun c => c == lbrace)

def endsWithBrace (s : Str) : Bool := s.getLast? == some rbrace

/-- One segment of the marker-split loop: strip it; skip it when empty;
when it starts with a left brace and ends with a right brace, try to
decode it; otherwise, when it contains a left brace somewhere, decode
from the first left brace provided the segment ends with a right brace;
decode failures and everything else are silently dropped. -/
def parsePart (part0 : Str) : Option Json :=
  let part := pyStrip part0
  match part with
  | [] => none
  | c :: _ =>
      if c == lbrace && endsWithBrace part then jsonParse part
      else if braceIn part then
        let jp := (spanW (fun x => !(x == lbrace)) part).2
        if endsWithBrace jp then jsonParse jp else none
      else none

/-- String-input normalization: whole-string json.loads first (a
non-list result is wrapped in a singleton), else the marker-split loop.
The decode failure of json.loads is caught by the source, so this
function is total; the except-branch that would re-raise a parse
failure can only be reached by exceptions other than a decode error,
which no operation in the block produces for a string input. -/
def parseEmailsStr (s : Str) : List Json :=
  match jsonParse s with
  | some (Json.arr xs) => xs
  | some j => [j]
  | none => (splitMarkers s).filterMap parsePart

inductive PyInput where
  | str (s : Str)
  | list (emails : List Json)

def normalizeEmails : PyInput → List Json
  | PyInput.str s => parseEmailsStr s
  | PyInput.list xs => xs

/-
Per-record extraction (extract_uber_data.py lines 116-227).
A record in the model is the dict the source returns; field order
follows the source.  The Except layer models Python exceptions: the
batch loop catches them and skips the record.
-/

structure Receipt where
  cost : Option ℚ
  currency : Option Str
  date : Option Str
  passenger : Option Str
deriving DecidableEq

/-- dict.get with later duplicate keys overriding earlier ones, as in
Python (json.loads keeps the last value of a repeated key). -/
def dictGet (k : Str) : List (Str × Json) → Option Json
  | [] => none
  | (k2, v) :: rest =>
      match dictGet k rest with
      | some r => some r
      | none => if k2 = k then some v else none

/-- email_data.get('body', ''): a missing key defaults to the empty
string; a non-dict record raises (AttributeError on .get), and a
non-string body raises (TypeError inside the first re.search). -/
def getBody : Json → Except Unit Str
  | Json.obj kvs =>
      match dictGet ("body".toList) kvs with
      | none => Except.ok []
      | some (Json.str b) => Except.ok b
      | some _ => Except.error ()
  | _ => Except.error ()

/-- Cost and currency stage: the keyword pattern first, then the
relaxed pattern; float() on the matched amount group (after the comma
replacement) can raise, which aborts the whole record. -/
def costCurrencyOf (body : Str) : Except Unit (Option ℚ × Option Str) :=
  match searchTotal body with
  | some (amt, cur) =>
      match parseAmt (replaceComma amt) with
      | some q => Except.ok (some q, some cur)
      | none => Except.error ()
  | none =>
      match searchRelaxed body with
      | some (amt, cur) =>
          match parseAmt (replaceComma amt) with
          | some q => Except.ok (some q, some cur)
          | none => Except.error ()
      | none => Except.ok (none, none)

/-- Date stage: the keyword-anchored date pattern first, then the
general date pattern anywhere in the body; the captured group is
stripped and converted. -/
def dateOf (body : Str) : Option Str :=
  match searchAnchoredDate body with
  | some g => convert_swedish_date_to_iso (pyStrip g)
  | none =>
      match searchGenDate body with
      | some g => convert_swedish_date_to_iso (pyStrip g)
      | none => none

/-- Passenger stage: (a) the greeting pattern (the source assigns the
stripped candidate whether or not it is a roster name, so the roster
test there is behaviourally a no-op); (b) the per-name pattern loop
over the roster; (c) the general capture patterns with case-insensitive
canonicalization against the roster. -/
def passengerOf (body : Str) : Option Str :=
  match searchGreeting body with
  | some cand => some (pyStrip cand)
  | none =>
      match family_members.find? (fun n => nameMatches n body) with
      | some n => some n
      | none =>
          match generalCapture body with
          | some cand0 =>
              let cand := pyStrip cand0
              match family_members.find? (fun m => pyLower cand == pyLower m) with
              | some m => some m
              | none => some cand
          | none => none

/-- The four extraction stages on a body.  The cost stage runs first
and its exception aborts the record before the other stages, as in the
source; the date and passenger stages cannot raise. -/
def extractFromBody (body : Str) : Except Unit Receipt :=
  match costCurrencyOf body with
  | Except.error e => Except.error e
  | Except.ok (c, cur) => Except.ok ⟨c, cur, dateOf body, passengerOf body⟩

def extractFromData (j : Json) : Except Unit Receipt :=
  match getBody j with
  | Except.error e => Except.error e
  | Except.ok body => extractFromBody body

/-- extract_receipt_from_email: a string record is itself json-decoded
first; a decode failure returns the all-None record (not an error). -/
def extract_receipt_from_email (j : Json) : Except Unit Receipt :=
  match j with
  | Json.str s =>
      match jsonParse s with
      | none => Except.ok ⟨none, none, none, none⟩
      | some j2 => extractFromData j2
  | _ => extractFromData j

abbrev Out := List (Option Str) × List (Option Str) × List ℚ × List Str

/-- Decidable equality for Except results, used to evaluate the model
at concrete inputs. -/
def exceptDecEq {e a : Type _} [DecidableEq e] [DecidableEq a] :
    DecidableEq (Except e a) := fun x y =>
  match x, y with
  | Except.error v, Except.error w =>
      if h : v = w then Decidable.isTrue (by rw [h])
      else Decidable.isFalse (fun he => h (by cases he; rfl))
  | Except.ok v, Except.ok w =>
      if h : v = w then Decidable.isTrue (by rw [h])
      else Decidable.isFalse (fun he => h (by cases he; rfl))
  | Except.error _, Except.ok _ => Decidable.isFalse (fun he => Except.noConfusion he)
  | Except.ok _, Except.error _ => Decidable.isFalse (fun he => Except.noConfusion he)

instance {e a : Type _} [DecidableEq e] [DecidableEq a] : DecidableEq (Except e a) :=
  exceptDecEq

/-- The batch loop shared by extract_uber_data and
process_uber_receipts.function (their loops are textually identical up
to the extractor): records whose extraction raises are skipped, and a
record is appended to all four lists exactly when both cost and
currency are present. -/
def processWith (f : Json → Except Unit Receipt) : List Json → Out
  | [] => ([], [], [], [])
  | e :: rest =>
      let p := processWith f rest
      match f e with
      | Except.error _ => p
      | Except.ok r =>
          match r.cost, r.currency with
          | some c, some cur =>
              (r.date :: p.1, r.passenger :: p.2.1, c :: p.2.2.1, cur :: p.2.2.2)
          | _, _ => p

def processEmails : List Json → Out := processWith extract_receipt_from_email

/-- Whether a record is accepted (contributes to the output lists). -/
def acceptedBy (f : Json → Except Unit Receipt) (j : Json) : Bool :=
  match f j with
  | Except.ok r => r.cost.isSome && r.currency.isSome
  | Except.error _ => false

def countAccepted (emails : List Json) : Nat :=
  emails.countP (acceptedBy extract_receipt_from_email)

inductive Err where
  | parseFail (msg : Str)
  | inconsistentLengths (d p c q : Nat)
  | noValidReceipts
deriving DecidableEq

/-- extract_uber_data: normalize the input, run the batch loop, check
the parallel-length invariant (the Python test len(set(lengths)) != 1
is exactly the failure of the chained equalities), then reject a batch
with zero receipts.  Err.parseFail models the except-branch of the
string normalization; it is never constructed, since the only
exception the normalization block can produce for a string input is
the json decode error, which the block itself catches. -/
def extract_uber_data (inp : PyInput) : Except Err Out :=
  let p := processEmails (normalizeEmails inp)
  if p.1.length = p.2.1.length ∧ p.2.1.length = p.2.2.1.length ∧
      p.2.2.1.length = p.2.2.2.length then
    if p.2.2.1.length = 0 then Except.error Err.noValidReceipts
    else Except.ok p
  else
    Except.error (Err.inconsistentLengths p.1.length p.2.1.length p.2.2.1.length p.2.2.2.length)

/-
The strict variant: process_uber_receipts.function and its nested
extract_single_receipt (process_uber_receipts.py lines 186-309).  The
patterns differ from the lenient variant only in having no
Avbokningsavgift alternative, no relaxed cost fallback, no general date
fallback, and only the single greeting passenger pattern.
-/

/-- Pattern Totalt\s+([\d\.,]+)\s+([A-Za-z$€£]+) anchored at a
position. -/
def matchTotalStrictAt (s : Str) : Option (Str × Str) := do
  let r0 ← litAt ("Totalt".toList) s
  let r1 ← wsPlus r0
  let (amt, r2) ← clsPlus isAmtC r1
  let r3 ← wsPlus r2
  let (cur, _) ← clsPlus isCurC r3
  pure (amt, cur)

def searchTotalStrict : Str → Option (Str × Str) := reSearch matchTotalStrictAt

/-- Pattern Totalt\s+[\d\.,]+\s+[A-Za-z$€£]+\s+([0-9]{1,2}\s+
[a-zA-ZåäöÅÄÖ]+\s+[0-9]{4}) anchored at a position. -/
def matchAnchoredDateStrictAt (s : Str) : Option Str := do
  let r0 ← litAt ("Totalt".toList) s
  let r1 ← wsPlus r0
  let (_, r2) ← clsPlus isAmtC r1
  let r3 ← wsPlus r2
  let (_, r4) ← clsPlus isCurC r3
  let r5 ← wsPlus r4
  matchDateGroupAt r5

def searchAnchoredDateStrict : Str → Option Str := reSearch matchAnchoredDateStrictAt

/-- Pattern Tack för att du reser,\s+([A-Za-zåäöÅÄÖ]+) anchored at a
position. -/
def matchGreetingStrictAt (s : Str) : Option Str := do
  let r0 ← litAt ("Tack för att du reser,".toList) s
  let r1 ← wsPlus r0
  let (cand, _) ← clsPlus isNameLetter r1
  pure cand

def costCurrencyStrictOf (body : Str) : Except Unit (Option ℚ × Option Str) :=
  match searchTotalStrict body with
  | some (amt, cur) =>
      match parseAmt (replaceComma amt) with
      | some q => Except.ok (some q, some cur)
      | none => Except.error ()
  | none => Except.ok (none, none)

def dateStrictOf (body : Str) : Option Str :=
  match searchAnchoredDateStrict body with
  | some g => convert_swedish_date_to_iso (pyStrip g)
  | none => none

def passengerStrictOf (body : Str) : Option Str :=
  match reSearch matchGreetingStrictAt body with
  | some cand => some (pyStrip cand)
  | none => none

/-- extract_single_receipt: no string-record handling; the cost stage
can raise through float(). -/
def extract_single_receipt (j : Json) : Except Unit Receipt :=
  match getBody j with
  | Except.error e => Except.error e
  | Except.ok body =>
      match costCurrencyStrictOf body with
      | Except.error e => Except.error e
      | Except.ok (c, cur) => Except.ok ⟨c, cur, dateStrictOf body, passengerStrictOf body⟩

def processStrict : List Json → Out := processWith extract_single_receipt

def countAcceptedStrict (emails : List Json) : Nat :=
  emails.countP (acceptedBy extract_single_receipt)

/-- process_uber_receipts.function: the same batch loop and the same
length validation as extract_uber_data, but no zero-receipts check at
all - an empty result is returned as four empty lists. -/
def function (emails : List Json) : Except Err Out :=
  let p := processStrict emails
  if p.1.length = p.2.1.length ∧ p.2.1.length = p.2.2.1.length ∧
      p.2.2.1.length = p.2.2.2.length then
    Except.ok p
  else
    Except.error (Err.inconsistentLengths p.1.length p.2.1.length p.2.2.1.length p.2.2.2.length)

/-- A convenience builder for a record with the given body, matching
the JSON object the source reads. -/
def emailOf (body : Str) : Json :=
  Json.obj [("body".toList, Json.str body)]

/-
Shared lemmas.
-/

/-- Each acceptance path of the batch loop appends to all four lists
atomically, so the four lengths are always the count of accepted
records. -/
theorem processWith_len (f : Json → Except Unit Receipt) (emails : List Json) :
    (processWith f emails).1.length = emails.countP (acceptedBy f) ∧
    (processWith f emails).2.1.length = emails.countP (acceptedBy f) ∧
    (processWith f emails).2.2.1.length = emails.countP (acceptedBy f) ∧
    (processWith f emails).2.2.2.length = emails.countP (acceptedBy f) := by
  induction emails with
  | nil => simp [processWith]
  | cons e rest ih =>
    obtain ⟨h1, h2, h3, h4⟩ := ih
    simp only [processWith, List.countP_cons]
    cases hf : f e with
    | error u => simp [acceptedBy, hf, h1, h2, h3, h4]
    | ok r =>
      cases hc : r.cost with
      | none => simp [acceptedBy, hf, hc, h1, h2, h3, h4]
      | some c =>
        cases hcur : r.currency with
        | none => simp [acceptedBy, hf, hc, hcur, h1, h2, h3, h4]
        | some cur => simp [acceptedBy, hf, hc, hcur, h1, h2, h3, h4]

/-- The length validation of extract_uber_data always passes, so the
whole call reduces to the zero-receipts test. -/
theorem extract_uber_data_eq (inp : PyInput) :
    extract_uber_data inp =
      if countAccepted (normalizeEmails inp) = 0 then Except.error Err.noValidReceipts
      else Except.ok (processEmails (normalizeEmails inp)) := by
  obtain ⟨h1, h2, h3, h4⟩ := processWith_len extract_receipt_from_email (normalizeEmails inp)
  simp only [extract_uber_data, processEmails, countAccepted] at *
  rw [h1, h2, h3, h4]
  simp

/-- The length validation of process_uber_receipts.function always
passes, and there is no further check. -/
theorem function_eq (emails : List Json) :
    function emails = Except.ok (processStrict emails) := by
  obtain ⟨h1, h2, h3, h4⟩ := processWith_len extract_single_receipt emails
  simp only [function, processStrict] at *
  rw [h1, h2, h3, h4]
  simp

/-- Claim C1: for every input, the four output lists of
extract_uber_data have equal length, that common length is the number
of normalized input records for which both cost and currency were
extracted, and the post-loop inconsistent-lengths validation error is
unreachable. -/
theorem extract_uber_data_parallel_arrays (inp : PyInput) :
    ((processEmails (normalizeEmails inp)).1.length = countAccepted (normalizeEmails inp) ∧
     (processEmails (normalizeEmails inp)).2.1.length = countAccepted (normalizeEmails inp) ∧
     (processEmails (normalizeEmails inp)).2.2.1.length = countAccepted (normalizeEmails inp) ∧
     (processEmails (normalizeEmails inp)).2.2.2.length = countAccepted (normalizeEmails inp)) ∧
    ∀ d p c q, extract_uber_data inp ≠ Except.error (Err.inconsistentLengths d p c q) := by
  refine ⟨processWith_len extract_receipt_from_email (normalizeEmails inp), ?_⟩
  intro d p c q
  rw [extract_uber_data_eq]
  split <;> simp

/-- Claim C9: a body with no keyword-anchored charge line at all, such
as a bare date text, is still matched by the relaxed fallback (digits
followed by a letter run), yielding cost 5 and currency juli, and the
record is accepted into the output lists. -/
theorem lenient_fallback_accepts_date_text :
    extract_uber_data (PyInput.list [emailOf ("5 juli 2025".toList)]) =
      Except.ok ([some ("2025-07-05".toList)], [none], [(5 : ℚ)], ["juli".toList]) := by
  rfl

/-- Claim C5: the date conversion maps the two sample Swedish dates to
their ISO forms, and any input that does not split into exactly three
whitespace-separated parts, or whose month word is not in the Swedish
month table, yields none (the function is total, so nothing is
raised). -/
theorem swedish_date_conversion_spec (s : Str)
    (h : match pySplit (pyStrip s) with
         | [_, m, _] => swedishMonthLookup (pyLower m) = none
         | _ => True) :
    convert_swedish_date_to_iso s = none ∧
    convert_swedish_date_to_iso ("5 juli 2025".toList) = some ("2025-07-05".toList) ∧
    convert_swedish_date_to_iso ("31 december 1999".toList) = some ("1999-12-31".toList) := by
  refine ⟨?_, by decide, by decide⟩
  unfold convert_swedish_date_to_iso
  by_cases hs : s.isEmpty
  · simp [hs]
  · simp only [hs, Bool.false_eq_true, if_false]
    split
    · rename_i d m y heq
      rw [heq] at h
      rw [h]
    · rfl

/-- Witness for claim C5 at a concrete unrecognized month. -/
theorem swedish_date_conversion_spec_witness :
    (match pySplit (pyStrip ("5 zzz 2025".toList)) with
     | [_, m, _] => swedishMonthLookup (pyLower m) = none
     | _ => True) ∧
    convert_swedish_date_to_iso ("5 zzz 2025".toList) = none :=
  ⟨by rfl, (swedish_date_conversion_spec ("5 zzz 2025".toList) (by rfl)).1⟩

/-- Comma-to-dot replacement is idempotent. -/
theorem replaceComma_idem (s : Str) :
    replaceComma (replaceComma s) = replaceComma s := by
  induction s with
  | nil => rfl
  | cons c cs ih =>
    simp only [replaceComma, List.map_cons] at *
    rw [ih]
    by_cases hc : c == ','
    · simp [hc]
    · simp [hc]

/-- Claim C6: the extraction parse of an amount string (which replaces
commas by dots before float()) agrees with the parse of its
dot-separated equivalent; in particular 123,45 and 123.45 both yield
the cost 123.45. -/
theorem decimal_comma_normalization :
    (∀ s : Str, parseAmt (replaceComma s) = parseAmt (replaceComma (replaceComma s))) ∧
    costCurrencyOf ("Totalt 123,45 kr".toList) =
      Except.ok (some ((12345 : ℚ) / 100), some ("kr".toList)) ∧
    costCurrencyOf ("Totalt 123.45 kr".toList) =
      Except.ok (some ((12345 : ℚ) / 100), some ("kr".toList)) := by
  have harith : ((123 : ℕ) : ℚ) + ((45 : ℕ) : ℚ) / (10 : ℚ) ^ (2 : ℕ) = (12345 : ℚ) / 100 := by
    norm_num
  refine ⟨fun s => by rw [replaceComma_idem], ?_, ?_⟩
  · have h : costCurrencyOf ("Totalt 123,45 kr".toList) =
        Except.ok (some (((123 : ℕ) : ℚ) + ((45 : ℕ) : ℚ) / (10 : ℚ) ^ (2 : ℕ)),
          some ("kr".toList)) := rfl
    rw [h, harith]
  · have h : costCurrencyOf ("Totalt 123.45 kr".toList) =
        Except.ok (some (((123 : ℕ) : ℚ) + ((45 : ℕ) : ℚ) / (10 : ℚ) ^ (2 : ℕ)),
          some ("kr".toList)) := rfl
    rw [h, harith]

/-- Claim C10: the date conversion performs no calendar-range check:
whenever the token splits into three parts with a recognized month, the
day digits are copied verbatim after zero-padding, so 99 juli 2025
yields the shape-correct but non-calendar string 2025-07-99. -/
theorem date_no_range_validation (s : Str) (d m y mm : Str)
    (hsp : pySplit (pyStrip s) = [d, m, y])
    (hm : swedishMonthLookup (pyLower m) = some mm) :
    convert_swedish_date_to_iso s = some (y ++ ['-'] ++ mm ++ ['-'] ++ zfill2 d) ∧
    convert_swedish_date_to_iso ("99 juli 2025".toList) = some ("2025-07-99".toList) := by
  refine ⟨?_, by decide⟩
  have hs : s.isEmpty = false := by
    cases s with
    | nil => simp [pyStrip, pySplit, pySplitAux, spanW] at hsp
    | cons c cs => rfl
  unfold convert_swedish_date_to_iso
  rw [hs, hsp]
  simp [hm]

/-- Witness for claim C10 at the concrete out-of-range day. -/
theorem date_no_range_validation_witness :
    pySplit (pyStrip ("99 juli 2025".toList)) =
      ["99".toList, "juli".toList, "2025".toList] ∧
    convert_swedish_date_to_iso ("99 juli 2025".toList) =
      some ("2025".toList ++ ['-'] ++ "07".toList ++ ['-'] ++ zfill2 ("99".toList)) :=
  ⟨by decide,
   (date_no_range_validation ("99 juli 2025".toList) ("99".toList) ("juli".toList)
      ("2025".toList) ("07".toList) (by decide) (by decide)).1⟩

/-- The rest after a greedy span is made of characters of the input. -/
theorem mem_of_spanW_snd {p : Char → Bool} {s : Str} {a : Char}
    (h : a ∈ (spanW p s).2) : a ∈ s := by
  induction s with
  | nil => simp [spanW] at h
  | cons c cs ih =>
    by_cases hc : p c
    · simp only [spanW, hc, if_true] at h
      exact List.mem_cons_of_mem c (ih h)
    · simp only [spanW, hc, if_false] at h
      exact h

/-- Stripping only removes characters. -/
theorem mem_of_mem_pyStrip {s : Str} {a : Char} (h : a ∈ pyStrip s) : a ∈ s := by
  unfold pyStrip at h
  rw [List.mem_reverse] at h
  have h2 := mem_of_spanW_snd h
  rw [List.mem_reverse] at h2
  exact mem_of_spanW_snd h2

/-- A segment with no left brace is dropped by the marker-split loop. -/
theorem parsePart_none {part0 : Str} (h : lbrace ∉ part0) :
    parsePart part0 = none := by
  unfold parsePart
  have hb : lbrace ∉ pyStrip part0 := fun hmem => h (mem_of_mem_pyStrip hmem)
  cases hp : pyStrip part0 with
  | nil => rfl
  | cons c t =>
    have hc : (c == lbrace) = false := by
      rw [beq_eq_false_iff_ne]
      intro he
      exact hb (by rw [hp, he]; exact List.mem_cons_self _ _)
    have hbi : braceIn (c :: t) = false := by
      rw [← hp]
      unfold braceIn
      rw [List.any_eq_false]
      intro x hx he
      exact hb ((beq_iff_eq.mp he) ▸ hx)
    simp [hc, hbi]

/-- With no marker anywhere, the split loop returns the whole string as
the only piece. -/
theorem splitMarkersGo_no_marker (fuel : Nat) :
    ∀ (acc s : Str), hasMarker s = false →
      splitMarkersGo fuel acc s = [acc.reverse ++ s] := by
  induction fuel with
  | zero => intro acc s _; rfl
  | succ n ih =>
    intro acc s hm
    cases s with
    | nil => simp [splitMarkersGo]
    | cons c rest =>
      unfold hasMarker at hm
      rw [Bool.or_eq_false_iff] at hm
      obtain ⟨hm1, hm2⟩ := hm
      have hnone : markerAt (c :: rest) = none := by
        cases hma : markerAt (c :: rest) with
        | none => rfl
        | some r => rw [hma] at hm1; simp at hm1
      unfold splitMarkersGo
      rw [hnone, ih (c :: acc) rest hm2]
      simp

theorem splitMarkers_no_marker {s : Str} (h : hasMarker s = false) :
    splitMarkers s = [s] := by
  unfold splitMarkers
  rw [splitMarkersGo_no_marker _ [] s h]
  rfl

/-- Counterexample for claim C2: on a top-level string that is not
JSON, has no marker and no brace, the raised error is the zero-receipts
validation error, not an error naming the parse failure. -/
theorem extract_uber_data_nonjson_counterexample :
    extract_uber_data (PyInput.str ("hello".toList)) =
      Except.error Err.noValidReceipts := by
  rfl

/-- Claim C2 (amended): a top-level string input that json.loads
rejects, with no Value-number marker and no left brace, normalizes to
an empty record list, so extract_uber_data raises the zero-receipts
validation error; the descriptive parse-failure error is unreachable on
every input, because the only exception the string-normalization block
can produce is the json decode error, which it catches itself. -/
theorem extract_uber_data_nonjson_no_receipts (s : Str)
    (hjson : jsonParse s = none) (hmark : hasMarker s = false)
    (hbrace : lbrace ∉ s) :
    extract_uber_data (PyInput.str s) = Except.error Err.noValidReceipts ∧
    ∀ (inp : PyInput) (msg : Str),
      extract_uber_data inp ≠ Except.error (Err.parseFail msg) := by
  constructor
  · have hemails : normalizeEmails (PyInput.str s) = [] := by
      simp only [normalizeEmails, parseEmailsStr, hjson]
      rw [splitMarkers_no_marker hmark]
      simp [parsePart_none hbrace]
    rw [extract_uber_data_eq, hemails]
    simp [countAccepted]
  · intro inp msg
    rw [extract_uber_data_eq]
    split <;> simp

/-- Witness for claim C2 at the concrete input hello. -/
theorem extract_uber_data_nonjson_no_receipts_witness :
    jsonParse ("hello".toList) = none ∧
    extract_uber_data (PyInput.str ("hello".toList)) =
      Except.error Err.noValidReceipts :=
  ⟨by rfl,
   (extract_uber_data_nonjson_no_receipts ("hello".toList) (by rfl) (by rfl)
      (by decide)).1⟩

/-- Counterexample for claim C3: a non-empty input with zero accepted
records makes process_uber_receipts.function return successfully with
four empty lists; no validation error is raised there. -/
theorem function_zero_accepted_counterexample :
    countAcceptedStrict [emailOf []] = 0 ∧
    function [emailOf []] = Except.ok ([], [], [], []) := by
  exact ⟨rfl, rfl⟩

/-- Claim C3 (amended): on a non-empty input with zero accepted
records, extract_uber_data raises the zero-receipts validation error,
but process_uber_receipts.function does not - it returns four empty
lists. -/
theorem zero_accepted_validation (emails : List Json) (_hne : emails ≠ [])
    (h0 : countAccepted emails = 0) (h0s : countAcceptedStrict emails = 0) :
    extract_uber_data (PyInput.list emails) = Except.error Err.noValidReceipts ∧
    function emails = Except.ok ([], [], [], []) := by
  constructor
  · rw [extract_uber_data_eq]
    simp [normalizeEmails, h0]
  · rw [function_eq]
    obtain ⟨h1, h2, h3, h4⟩ := processWith_len extract_single_receipt emails
    have h0s' : emails.countP (acceptedBy extract_single_receipt) = 0 := h0s
    rcases hp : processStrict emails with ⟨a, b, c, d⟩
    have hp' : processWith extract_single_receipt emails = (a, b, c, d) := hp
    rw [hp'] at h1 h2 h3 h4
    have e1 : a = [] := List.length_eq_zero.mp (h1.trans h0s')
    have e2 : b = [] := List.length_eq_zero.mp (h2.trans h0s')
    have e3 : c = [] := List.length_eq_zero.mp (h3.trans h0s')
    have e4 : d = [] := List.length_eq_zero.mp (h4.trans h0s')
    rw [e1, e2, e3, e4]

/-- Witness for claim C3 at a concrete one-record input with an empty
body. -/
theorem zero_accepted_validation_witness :
    countAccepted [emailOf []] = 0 ∧
    extract_uber_data (PyInput.list [emailOf []]) =
      Except.error Err.noValidReceipts :=
  ⟨rfl, (zero_accepted_validation [emailOf []] (by simp) rfl rfl).1⟩

/-- A successful search comes from a successful anchored match at some
position. -/
theorem reSearch_some {α : Type} {f : Str → Option α} {s : Str} {v : α}
    (h : reSearch f s = some v) : ∃ t, f t = some v := by
  induction s with
  | nil => exact ⟨[], h⟩
  | cons c rest ih =>
    unfold reSearch at h
    cases hf : f (c :: rest) with
    | some r => rw [hf] at h; exact ⟨c :: rest, hf.trans h⟩
    | none => rw [hf] at h; exact ih h

/-- The captured part of a greedy span satisfies the class. -/
theorem spanW_fst_all (p : Char → Bool) (s : Str) : (spanW p s).1.all p = true := by
  induction s with
  | nil => rfl
  | cons c cs ih =>
    by_cases hc : p c
    · simp [spanW, hc, ih]
    · simp [spanW, hc]

/-- Inversion for a greedy plus. -/
theorem clsPlus_some {p : Char → Bool} {s g r : Str}
    (h : clsPlus p s = some (g, r)) : g.all p = true ∧ g ≠ [] := by
  unfold clsPlus at h
  rcases hs : spanW p s with ⟨g1, r1⟩
  rw [hs] at h
  cases g1 with
  | nil => simp at h
  | cons x xs =>
    simp only [Option.some.injEq, Prod.mk.injEq] at h
    obtain ⟨hg, _⟩ := h
    constructor
    · rw [← hg]
      have := spanW_fst_all p s
      rw [hs] at this
      exact this
    · rw [← hg]; simp

/-- A digit is not a dot. -/
theorem digit_ne_dot {c : Char} (h : c.isDigit = true) : (c == '.') = false := by
  rw [beq_eq_false_iff_ne]
  intro he
  rw [he] at h
  exact absurd h (by decide)

/-- The not-dot span of an all-digit string takes everything. -/
theorem spanW_notdot_digits {l : Str} (h : l.all Char.isDigit = true) :
    spanW (fun c => !(c == '.')) l = (l, []) := by
  induction l with
  | nil => rfl
  | cons c cs ih =>
    rw [List.all_cons, Bool.and_eq_true] at h
    obtain ⟨hc, hcs⟩ := h
    simp [spanW, digit_ne_dot hc, ih hcs]

/-- The not-dot span stops exactly at a dot after an all-digit run. -/
theorem spanW_notdot_append {d1 d2 : Str} (h : d1.all Char.isDigit = true) :
    spanW (fun c => !(c == '.')) (d1 ++ '.' :: d2) = (d1, '.' :: d2) := by
  induction d1 with
  | nil => simp [spanW]
  | cons c cs ih =>
    rw [List.all_cons, Bool.and_eq_true] at h
    obtain ⟨hc, hcs⟩ := h
    simp [spanW, digit_ne_dot hc, ih hcs]

/-- replaceComma keeps all-digit strings unchanged. -/
theorem replaceComma_digits {l : Str} (h : l.all Char.isDigit = true) :
    replaceComma l = l := by
  induction l with
  | nil => rfl
  | cons c cs ih =>
    rw [List.all_cons, Bool.and_eq_true] at h
    obtain ⟨hc, hcs⟩ := h
    have hb : (c == ',') = false := by
      rw [beq_eq_false_iff_ne]
      intro he
      rw [he] at hc
      exact absurd hc (by decide)
    show (if (c == ',') = true then '.' else c) :: replaceComma cs = c :: cs
    rw [hb, ih hcs]
    simp

/-- Amount groups of the relaxed pattern always survive float(): they
are a nonempty digit run, optionally followed by one separator and more
digits. -/
theorem parseAmt_relaxed_shape {d1 sep d2 : Str}
    (h1 : d1.all Char.isDigit = true) (hne : d1 ≠ [])
    (hsep : sep = [] ∨ sep = ['.'] ∨ sep = [','])
    (h2 : d2.all Char.isDigit = true) :
    (parseAmt (replaceComma (d1 ++ sep ++ d2))).isSome = true := by
  have hd1 : replaceComma d1 = d1 := replaceComma_digits h1
  have hd2 : replaceComma d2 = d2 := replaceComma_digits h2
  have hmap : replaceComma (d1 ++ sep ++ d2) = d1 ++ replaceComma sep ++ d2 := by
    simp only [replaceComma] at *
    rw [List.map_append, List.map_append, hd1, hd2]
  rw [hmap]
  rcases hsep with hs | hs | hs
  · subst hs
    have hall : (d1 ++ ([] : Str).map (fun c => if c == ',' then '.' else c) ++ d2).all
        Char.isDigit = true := by
      simp only [List.map_nil, List.append_nil, List.all_append, Bool.and_eq_true]
      exact ⟨by simpa using h1, h2⟩
    unfold parseAmt
    rw [show replaceComma ([] : Str) = [] from rfl]
    rw [spanW_notdot_digits (by simpa using hall)]
    simp only []
    cases hd : d1 with
    | nil => exact absurd hd hne
    | cons x xs =>
      rw [← hd]
      simp only [List.map_nil, List.append_nil] at hall ⊢
      have hempty : (d1 ++ d2).isEmpty = false := by
        rw [hd]; rfl
      rw [hempty, hall]
      rfl
  · subst hs
    rw [show replaceComma (['.'] : Str) = ['.'] from rfl]
    unfold parseAmt
    have : d1 ++ ['.'] ++ d2 = d1 ++ '.' :: d2 := by simp
    rw [this, spanW_notdot_append h1]
    simp only []
    have hne' : d1.isEmpty = false := by
      cases d1 with
      | nil => exact absurd rfl hne
      | cons x xs => rfl
    simp [h1, h2, hne']
  · subst hs
    rw [show replaceComma ([','] : Str) = ['.'] from rfl]
    unfold parseAmt
    have : d1 ++ ['.'] ++ d2 = d1 ++ '.' :: d2 := by simp
    rw [this, spanW_notdot_append h1]
    simp only []
    have hne' : d1.isEmpty = false := by
      cases d1 with
      | nil => exact absurd rfl hne
      | cons x xs => rfl
    simp [h1, h2, hne']

/-- Inversion of the relaxed matcher: the amount group is a nonempty
digit run, an optional single separator, and a digit run. -/
theorem matchRelaxedAt_amount_shape {s amt cur : Str}
    (h : matchRelaxedAt s = some (amt, cur)) :
    ∃ d1 sep d2, amt = d1 ++ sep ++ d2 ∧ d1.all Char.isDigit = true ∧ d1 ≠ [] ∧
      (sep = [] ∨ sep = ['.'] ∨ sep = [',']) ∧ d2.all Char.isDigit = true := by
  unfold matchRelaxedAt at h
  cases hc : clsPlus Char.isDigit s with
  | none => rw [hc] at h; simp at h
  | some pr =>
    obtain ⟨d1, r1⟩ := pr
    rw [hc] at h
    obtain ⟨hall1, hne1⟩ := clsPlus_some hc
    simp only [] at h
    cases hcur : clsPlus isCurC ((spanW isWs (spanW Char.isDigit (sepSplitOf r1).2).2).2) with
    | none => rw [hcur] at h; simp at h
    | some prc =>
      obtain ⟨cur1, rr⟩ := prc
      rw [hcur] at h
      simp only [Option.some.injEq, Prod.mk.injEq] at h
      obtain ⟨hamt, _⟩ := h
      refine ⟨d1, (sepSplitOf r1).1, _, hamt.symm, hall1, hne1, ?_, spanW_fst_all _ _⟩
      unfold sepSplitOf
      cases r1 with
      | nil => left; rfl
      | cons c rest =>
        by_cases hsep : (c == '.' || c == ',') = true
        · simp only [hsep, if_true]
          rw [Bool.or_eq_true] at hsep
          rcases hsep with hd | hd
          · right; left; rw [beq_iff_eq.mp hd]
          · right; right; rw [beq_iff_eq.mp hd]
        · simp only [hsep, if_false]
          left; rfl

/-- Claim C4: when the primary keyword pattern does not match, cost and
currency come from the first (leftmost) match of the relaxed pattern,
and when neither pattern matches, cost and currency are absent and the
record is rejected from the output lists. -/
theorem cost_fallback_spec (body : Str) (h : searchTotal body = none) :
    (∀ amt cur, searchRelaxed body = some (amt, cur) →
        extractFromBody body =
          Except.ok ⟨parseAmt (replaceComma amt), some cur, dateOf body, passengerOf body⟩) ∧
    (searchRelaxed body = none →
        extractFromBody body = Except.ok ⟨none, none, dateOf body, passengerOf body⟩ ∧
        processEmails [emailOf body] = ([], [], [], [])) := by
  constructor
  · intro amt cur hr
    have hr' : reSearch matchRelaxedAt body = some (amt, cur) := hr
    obtain ⟨t, ht⟩ := reSearch_some hr'
    obtain ⟨d1, sep, d2, hamt, h1, hne1, hsep, h2⟩ := matchRelaxedAt_amount_shape ht
    have hsome : (parseAmt (replaceComma amt)).isSome = true := by
      rw [hamt]
      exact parseAmt_relaxed_shape h1 hne1 hsep h2
    obtain ⟨q, hq⟩ := Option.isSome_iff_exists.mp hsome
    unfold extractFromBody costCurrencyOf
    rw [h, hr]
    simp [hq]
  · intro hr
    have hfb : extractFromBody body =
        Except.ok ⟨none, none, dateOf body, passengerOf body⟩ := by
      unfold extractFromBody costCurrencyOf
      rw [h, hr]
    refine ⟨hfb, ?_⟩
    have hbody : getBody (emailOf body) = Except.ok body := by
      simp [getBody, emailOf, dictGet]
    have hrec : extract_receipt_from_email (emailOf body) =
        Except.ok ⟨none, none, dateOf body, passengerOf body⟩ := by
      show extractFromData (emailOf body) = _
      unfold extractFromData
      rw [hbody]
      simp [hfb]
    show processWith extract_receipt_from_email [emailOf body] = ([], [], [], [])
    unfold processWith
    rw [hrec]
    rfl

/-- Witness for claim C4 at a body matched only by the relaxed
pattern. -/
theorem cost_fallback_spec_witness :
    searchTotal ("hello 12,5kr".toList) = none ∧
    extractFromBody ("hello 12,5kr".toList) =
      Except.ok ⟨parseAmt (replaceComma ("12,5".toList)), some ("kr".toList),
        dateOf ("hello 12,5kr".toList), passengerOf ("hello 12,5kr".toList)⟩ :=
  ⟨by decide,
   (cost_fallback_spec ("hello 12,5kr".toList) (by decide)).1 ("12,5".toList)
     ("kr".toList) (by decide)⟩

/-- Claim C7: whenever the keyword pattern (Totalt or the cancellation
fee keyword) matches with a parseable amount, cost and currency are
present and the record is appended to all four output lists; on the
concrete cancellation body with no greeting, date and passenger are
absent and the record is still accepted. -/
theorem cancellation_record_accepted (body amt cur : Str) (q : ℚ)
    (h : searchTotal body = some (amt, cur))
    (hq : parseAmt (replaceComma amt) = some q) :
    extractFromBody body =
      Except.ok ⟨some q, some cur, dateOf body, passengerOf body⟩ ∧
    processEmails [emailOf body] =
      ([dateOf body], [passengerOf body], [q], [cur]) ∧
    extractFromBody ("Avbokningsavgift 50 kr".toList) =
      Except.ok ⟨some (50 : ℚ), some ("kr".toList), none, none⟩ := by
  have hfb : extractFromBody body =
      Except.ok ⟨some q, some cur, dateOf body, passengerOf body⟩ := by
    unfold extractFromBody costCurrencyOf
    rw [h]
    simp [hq]
  refine ⟨hfb, ?_, by rfl⟩
  have hbody : getBody (emailOf body) = Except.ok body := by
    simp [getBody, emailOf, dictGet]
  have hrec : extract_receipt_from_email (emailOf body) =
      Except.ok ⟨some q, some cur, dateOf body, passengerOf body⟩ := by
    show extractFromData (emailOf body) = _
    unfold extractFromData
    rw [hbody]
    simp [hfb]
  show processWith extract_receipt_from_email [emailOf body] = _
  unfold processWith
  rw [hrec]
  rfl

/-- Witness for claim C7 at the concrete cancellation body. -/
theorem cancellation_record_accepted_witness :
    searchTotal ("Avbokningsavgift 50 kr".toList) =
      some ("50".toList, "kr".toList) ∧
    processEmails [emailOf ("Avbokningsavgift 50 kr".toList)] =
      ([dateOf ("Avbokningsavgift 50 kr".toList)],
       [passengerOf ("Avbokningsavgift 50 kr".toList)], [(50 : ℚ)], ["kr".toList]) :=
  ⟨by decide,
   (cancellation_record_accepted ("Avbokningsavgift 50 kr".toList) ("50".toList)
      ("kr".toList) (50 : ℚ) (by decide) (by rfl)).2.1⟩

/-- Claim C8: when the passenger is found only by a generic pattern,
the candidate is matched case-insensitively against the roster and the
roster's stored casing is emitted, while a candidate matching no roster
entry is emitted verbatim. -/
theorem passenger_canonicalization (body cand : Str)
    (ha : searchGreeting body = none)
    (hb : family_members.find? (fun n => nameMatches n body) = none)
    (hc : generalCapture body = some cand) :
    passengerOf body =
      some (match family_members.find? (fun m => pyLower (pyStrip cand) == pyLower m) with
            | some m => m
            | none => pyStrip cand) := by
  unfold passengerOf
  rw [ha, hb, hc]
  cases hf : family_members.find? (fun m => pyLower (pyStrip cand) == pyLower m) with
  | some m => simp [hf]
  | none => simp [hf]

/-- Witness for claim C8 at a concrete all-caps roster name. -/
theorem passenger_canonicalization_witness :
    generalCapture ("Tack VIGGO!".toList) = some ("VIGGO".toList) ∧
    passengerOf ("Tack VIGGO!".toList) = some ("Viggo".toList) := by
  refine ⟨by decide, ?_⟩
  rw [passenger_canonicalization ("Tack VIGGO!".toList) ("VIGGO".toList)
    (by decide) (by decide) (by decide)]
  decide
